import Mathlib

/-!
Verification of the server-troubleshooter core: a shallow embedding of the
data-sanitization rules, the command extractor, the mutating-command
classifier and the troubleshooting session loop, translated from
`server_troubleshooter.py`, together with theorems checking the stated
properties of these operations.
-/

/-! Basic character and string helpers mirroring Python semantics. -/

/-- Python whitespace characters recognized by `str.strip` and the regex
class backslash-s (restricted to ASCII, which covers all inputs here). -/
def isPySpace (c : Char) : Bool :=
  c == ' ' || c == '\t' || c == '\n' || c == '\r' || c == '\x0b' || c == '\x0c'

/-- ASCII lowercasing of one character, as Python `str.lower` does on ASCII. -/
def pyLowerChar (c : Char) : Char :=
  if 'A' ≤ c ∧ c ≤ 'Z' then Char.ofNat (c.toNat + 32) else c

/-- Lowercase a character list (Python `str.lower`). -/
def lowerList (s : List Char) : List Char := s.map pyLowerChar

/-- Word character for the regex backslash-b boundary: `[A-Za-z0-9_]`. -/
def isWordChar (c : Char) : Bool := c.isAlphanum || c == '_'

/-- Word status of an optional character (out-of-range counts as non-word). -/
def wordStatusO : Option Char → Bool
  | none => false
  | some c => isWordChar c

/-- `leadsWith n h` holds when the list `h` begins with the list `n`. -/
def leadsWith : List Char → List Char → Bool
  | [], _ => true
  | _ :: _, [] => false
  | a :: as, b :: bs => (b == a) && leadsWith as bs

/-- `occursIn n h` holds when `n` appears as a contiguous run inside `h`
(Python `n in h` on strings). -/
def occursIn (n : List Char) : List Char → Bool
  | [] => leadsWith n []
  | c :: rest => leadsWith n (c :: rest) || occursIn n rest

/-- Length of the longest run of characters satisfying `p` at the head. -/
def takeCount (p : Char → Bool) (l : List Char) : Nat := (l.takeWhile p).length

/-- Python `text.split` on a newline: every newline separates, empty pieces kept. -/
def splitNl : List Char → List (List Char)
  | [] => [[]]
  | c :: rest =>
    if c == '\n' then [] :: splitNl rest
    else
      match splitNl rest with
      | [] => [[c]]
      | l :: ls => (c :: l) :: ls

/-- Python `str.strip`: drop leading and trailing whitespace. -/
def pyStrip (s : List Char) : List Char :=
  ((s.dropWhile isPySpace).reverse.dropWhile isPySpace).reverse

/-! Generic leftmost, non-overlapping regex substitution engine.
A matcher receives the character before the current position (for
backslash-b boundary tests) and the remaining text, and returns the number
of characters the pattern consumes there (at least one for every pattern
modelled below). -/

/-- One left-to-right substitution pass, fuelled for structural recursion.
Matches never restart inside a replacement, exactly like `re.sub`. -/
def reSubGo (m : Option Char → List Char → Option Nat) (repl : List Char) :
    Nat → Option Char → List Char → List Char
  | 0, _, s => s
  | _ + 1, _, [] => []
  | fuel + 1, prev, c :: rest =>
    match m prev (c :: rest) with
    | some k =>
      repl ++ reSubGo m repl fuel ((List.take k (c :: rest)).getLast?)
        (List.drop k (c :: rest))
    | none => c :: reSubGo m repl fuel (some c) rest

/-- `re.sub` of one pattern over a whole character list. -/
def reSub (m : Option Char → List Char → Option Nat) (repl : List Char)
    (s : List Char) : List Char :=
  reSubGo m repl (s.length + 1) none s

/-- Scan deciding whether the matcher succeeds at any position of the text. -/
def scanFinds (m : Option Char → List Char → Option Nat) :
    Option Char → List Char → Bool
  | _, [] => false
  | prev, c :: rest => (m prev (c :: rest)).isSome || scanFinds m (some c) rest

/-! The seven sanitization rules of `DataSanitizer.sanitize_output`. -/

/-- Boundary test between the previous character and the head of the rest. -/
def bndAt (prev : Option Char) (c : Char) : Bool := wordStatusO prev != isWordChar c

/-- Boundary test after a match whose last character is a word character:
the following text must not begin with a word character. -/
def endBnd : List Char → Bool
  | [] => true
  | c :: _ => !isWordChar c

/-- One `d{1,3}.` group of the IPv4 pattern: a maximal digit run of length
one to three followed by a literal dot (longer runs can never match, since
backtracking still leaves a digit where the dot is required). -/
def dotGroup (s : List Char) : Option (Nat × List Char) :=
  let m := takeCount Char.isDigit s
  if 1 ≤ m ∧ m ≤ 3 then
    match s.drop m with
    | '.' :: rest => some (m + 1, rest)
    | _ => none
  else none

/-- Matcher for the IPv4 rule pattern: word boundary, three digit-dot groups,
a final digit run of length one to three, word boundary. -/
def ipMatch (prev : Option Char) (s : List Char) : Option Nat :=
  match s with
  | [] => none
  | c :: _ =>
    if bndAt prev c then
      match dotGroup s with
      | none => none
      | some (k1, r1) =>
        match dotGroup r1 with
        | none => none
        | some (k2, r2) =>
          match dotGroup r2 with
          | none => none
          | some (k3, r3) =>
            let m := takeCount Char.isDigit r3
            if 1 ≤ m ∧ m ≤ 3 ∧ endBnd (r3.drop m) then
              some (k1 + k2 + k3 + m)
            else none
    else none

/-- Characters allowed in the local part of the email pattern. -/
def isLocalChar (c : Char) : Bool :=
  c.isAlphanum || c == '.' || c == '_' || c == '%' || c == '+' || c == '-'

/-- Characters allowed in the domain part of the email pattern. -/
def isDomainChar (c : Char) : Bool := c.isAlphanum || c == '.' || c == '-'

/-- Characters allowed in the top-level-domain part of the email pattern:
the source character class `[A-Z|a-z]` literally includes the bar. -/
def isTldChar (c : Char) : Bool := c.isAlpha || c == '|'

/-- Boundary test between positions `k - 1` and `k` of a list. -/
def boundaryAt (s : List Char) (k : Nat) : Bool :=
  wordStatusO (s.get? (k - 1)) != wordStatusO (s.get? k)

/-- Greedy search for the top-level-domain length: longest first, at least
two characters, ending at a word boundary. -/
def tryTldAux (s : List Char) : Nat → Option Nat
  | 0 => none
  | n + 1 =>
    if n + 1 < 2 then none
    else if boundaryAt s (n + 1) then some (n + 1)
    else tryTldAux s n

/-- Top-level-domain match at the start of `s` (text right after the dot). -/
def tldMatch (s : List Char) : Option Nat := tryTldAux s (takeCount isTldChar s)

/-- Backtracking search for the dot splitting domain and top-level domain:
dots are tried right to left, mirroring the greedy `+` of the pattern.
`afterAt` is the text following the at sign; the argument counts down over
candidate dot positions. Returns the total length `domain + dot + tld`. -/
def domainSearch (afterAt : List Char) : Nat → Option Nat
  | 0 => none
  | k + 1 =>
    if afterAt.get? (k + 1) == some '.' then
      match tldMatch (afterAt.drop (k + 2)) with
      | some tl => some ((k + 1) + 1 + tl)
      | none => domainSearch afterAt k
    else domainSearch afterAt k

/-- Matcher for the email rule pattern: word boundary, local part, at sign,
domain, dot, top-level domain, word boundary. -/
def emailMatch (prev : Option Char) (s : List Char) : Option Nat :=
  match s with
  | [] => none
  | c :: _ =>
    if bndAt prev c then
      let l := takeCount isLocalChar s
      if 1 ≤ l then
        match s.drop l with
        | '@' :: afterAt =>
          let r := takeCount isDomainChar afterAt
          match domainSearch afterAt (r - 1) with
          | some d => some (l + 1 + d)
          | none => none
        | _ => none
      else none
    else none

/-- Case-insensitive literal match at the head of the text (the keyword is
given lowercase, the text character is lowercased before comparing). -/
def leadsWithCI : List Char → List Char → Bool
  | [], _ => true
  | _ :: _, [] => false
  | a :: as, b :: bs => (pyLowerChar b == a) && leadsWithCI as bs

/-- The sensitive keywords of the redaction rule, in source alternation order. -/
def redactKeywords : List (List Char) :=
  ["password".data, "pwd".data, "passwd".data, "key".data, "token".data,
    "secret".data]

/-- Attempt to match `keyword [whitespace] colon-or-equals [whitespace]
nonspace-run` at the head of the text. No word boundary is required. -/
def redactTry (kw : List Char) (s : List Char) : Option Nat :=
  if leadsWithCI kw s then
    let r := s.drop kw.length
    let w1 := takeCount isPySpace r
    match r.drop w1 with
    | [] => none
    | c :: r2 =>
      if c == ':' || c == '=' then
        let w2 := takeCount isPySpace r2
        let k := takeCount (fun ch => !isPySpace ch) (r2.drop w2)
        if 1 ≤ k then some (kw.length + w1 + 1 + w2 + k) else none
      else none
  else none

/-- Try each keyword alternative in order at the current position. -/
def tryEach : List (List Char) → List Char → Option Nat
  | [], _ => none
  | kw :: kws, s =>
    match redactTry kw s with
    | some n => some n
    | none => tryEach kws s

/-- Matcher for the key-value redaction rule pattern. -/
def redactMatch (s : List Char) : Option Nat := tryEach redactKeywords s

/-- Path component characters: anything but a slash or whitespace. -/
def isPathChar (c : Char) : Bool := !(c == '/') && !isPySpace c

/-- Matcher for the home-directory rule pattern `/home/` + component. -/
def homeMatch (s : List Char) : Option Nat :=
  if leadsWith "/home/".data s then
    let k := takeCount isPathChar (s.drop 6)
    if 1 ≤ k then some (6 + k) else none
  else none

/-- Matcher for the log-path rule pattern `/var/log/` + two components. -/
def logMatch (s : List Char) : Option Nat :=
  if leadsWith "/var/log/".data s then
    let r := s.drop 9
    let k1 := takeCount isPathChar r
    if 1 ≤ k1 then
      match r.drop k1 with
      | '/' :: r2 =>
        let k2 := takeCount isPathChar r2
        if 1 ≤ k2 then some (9 + k1 + 1 + k2) else none
      | _ => none
    else none
  else none

/-- Lowercase hexadecimal digit. -/
def isHexLower (c : Char) : Bool := c.isDigit || ('a' ≤ c ∧ c ≤ 'f')

/-- Matcher for the hash rule pattern: word-bounded lowercase hex run of at
least 32 characters. -/
def hexMatch (prev : Option Char) (s : List Char) : Option Nat :=
  match s with
  | [] => none
  | c :: _ =>
    if bndAt prev c then
      let m := takeCount isHexLower s
      if 32 ≤ m ∧ endBnd (s.drop m) then some m else none
    else none

/-- Uppercase letter or digit. -/
def isUpperNum (c : Char) : Bool := c.isDigit || ('A' ≤ c ∧ c ≤ 'Z')

/-- Matcher for the long-identifier rule pattern: word-bounded run of
uppercase letters and digits of at least 20 characters. -/
def idMatch (prev : Option Char) (s : List Char) : Option Nat :=
  match s with
  | [] => none
  | c :: _ =>
    if bndAt prev c then
      let m := takeCount isUpperNum s
      if 20 ≤ m ∧ endBnd (s.drop m) then some m else none
    else none

/-! The seven substitution stages, in source order. -/

/-- Stage 1: IPv4-shaped sequences become `XXX.XXX.XXX.XXX`. -/
def ipStage (s : List Char) : List Char := reSub ipMatch "XXX.XXX.XXX.XXX".data s

/-- Stage 2: email-shaped tokens become `user@domain.com`. -/
def emailStage (s : List Char) : List Char :=
  reSub emailMatch "user@domain.com".data s

/-- The redaction matcher lifted to the engine interface (the pattern has no
word-boundary assertion, so the previous character is ignored). -/
def redactMatchP (_prev : Option Char) (s : List Char) : Option Nat := redactMatch s

/-- The home-path matcher lifted to the engine interface. -/
def homeMatchP (_prev : Option Char) (s : List Char) : Option Nat := homeMatch s

/-- The log-path matcher lifted to the engine interface. -/
def logMatchP (_prev : Option Char) (s : List Char) : Option Nat := logMatch s

/-- Stage 3: key-value pairs with a sensitive keyword become `REDACTED`. -/
def redactStage (s : List Char) : List Char :=
  reSub redactMatchP "REDACTED".data s

/-- Stage 4: home-directory paths become `/home/user`. -/
def homeStage (s : List Char) : List Char :=
  reSub homeMatchP "/home/user".data s

/-- Stage 5: two-level log paths become `/var/log/service/logfile`. -/
def logStage (s : List Char) : List Char :=
  reSub logMatchP "/var/log/service/logfile".data s

/-- Stage 6: long lowercase hex runs become `HASH_VALUE`. -/
def hexStage (s : List Char) : List Char := reSub hexMatch "HASH_VALUE".data s

/-- Stage 7: long uppercase alphanumeric runs become `ID_VALUE`. -/
def idStage (s : List Char) : List Char := reSub idMatch "ID_VALUE".data s

/-- `DataSanitizer.sanitize_output`: the seven rewrites applied in order. -/
def sanitize_output (text : String) : String :=
  String.mk (idStage (hexStage (logStage (homeStage (redactStage
    (emailStage (ipStage text.data)))))))

/-! `TroubleshooterApp._extract_commands`: parse advisory text into commands. -/

/-- Anchored strip of a leading numeric list marker (`\d+\.\s*`): a maximal
leading digit run followed by a dot, then any whitespace, is removed. -/
def stripListNum (s : List Char) : List Char :=
  let d := takeCount Char.isDigit s
  if 1 ≤ d then
    match s.drop d with
    | '.' :: r => r.drop (takeCount isPySpace r)
    | _ => s
  else s

/-- Anchored strip of a leading bullet marker (`[-*]\s*`). -/
def stripBullet (s : List Char) : List Char :=
  match s with
  | c :: r => if c == '-' || c == '*' then r.drop (takeCount isPySpace r) else s
  | [] => s

/-- The recognized header markers of the extractor, in source order. -/
def headerMarks : List String :=
  ["1.", "2.", "3.", "4.", "ANALYSIS:", "POTENTIAL_SOLUTIONS:", "NEXT_STEPS:"]

/-- The numbered markers among the recognized headers. -/
def numberedMarks : List String := ["1.", "2.", "3.", "4."]

/-- Python tuple `startswith`: true when any listed marker begins the text. -/
def startsWithAny (s : List Char) (ps : List String) : Bool :=
  ps.any fun p => leadsWith p.data s

/-- The line-by-line scan of `_extract_commands`, carrying the
inside-the-target-section flag. -/
def extractLoop (sectionName : String) : List (List Char) → Bool → List String
  | [], _ => []
  | line :: rest, inSection =>
    if occursIn sectionName.data line then
      extractLoop sectionName rest true
    else if startsWithAny (pyStrip line) headerMarks then
      if startsWithAny (pyStrip line) numberedMarks then
        extractLoop sectionName rest inSection
      else
        extractLoop sectionName rest false
    else if inSection ∧ pyStrip line ≠ [] then
      let command := stripBullet (stripListNum (pyStrip line))
      if command ≠ [] ∧ ¬ leadsWith "#".data command then
        String.mk command :: extractLoop sectionName rest inSection
      else
        extractLoop sectionName rest inSection
    else
      extractLoop sectionName rest inSection

/-- `TroubleshooterApp._extract_commands text sectionName`. -/
def extract_commands (text : String) (sectionName : String) : List String :=
  extractLoop sectionName (splitNl text.data) false

/-! Safety classification of solution commands
(`TroubleshooterApp._execute_solution_commands`). -/

/-- The fixed vocabulary of write operations, in source order. -/
def write_operations : List String :=
  ["rm", "mv", "cp", "chmod", "chown", "systemctl restart", "systemctl stop",
    "kill", "pkill"]

/-- A command is classified as a write/modification operation when its
lowercased text contains any vocabulary member as a substring. -/
def is_write_op (command : String) : Bool :=
  write_operations.any fun op => occursIn op.data (lowerList command.data)

/-! `DataSanitizer.extract_generic_info` and `_categorize_command`. -/

/-- The descriptor dictionary built from a command and its raw output. -/
structure GenericInfo where
  command_type : String
  sanitized_output : String
  output_length : Nat
  contains_errors : Bool
  exit_status : String
  deriving Repr, DecidableEq

/-- `DataSanitizer._categorize_command`: first keyword table match wins. -/
def categorize_command (command : String) : String :=
  let cmd := pyStrip (lowerList command.data)
  if ["ps", "top", "htop", "systemctl status"].any
      (fun w => occursIn w.data cmd) then "process_monitoring"
  else if ["df", "du", "lsblk", "mount"].any
      (fun w => occursIn w.data cmd) then "storage_analysis"
  else if ["free", "vmstat", "iostat"].any
      (fun w => occursIn w.data cmd) then "memory_analysis"
  else if ["netstat", "ss", "ping", "curl", "wget"].any
      (fun w => occursIn w.data cmd) then "network_analysis"
  else if ["dmesg", "journalctl", "tail", "grep"].any
      (fun w => occursIn w.data cmd) then "log_analysis"
  else if ["systemctl", "service", "chkconfig"].any
      (fun w => occursIn w.data cmd) then "service_management"
  else "general_system"

/-- `DataSanitizer.extract_generic_info`. -/
def extract_generic_info (command output : String) : GenericInfo :=
  { command_type := categorize_command command
    sanitized_output := sanitize_output output
    output_length := output.length
    contains_errors := occursIn "error".data (lowerList output.data) ||
      occursIn "fail".data (lowerList output.data)
    exit_status :=
      if ¬ (["error", "fail", "not found", "permission denied"].any
          fun w => occursIn w.data (lowerList output.data)) then "success"
      else "error" }

/-! The troubleshooting session loop
(`TroubleshooterApp.run_troubleshooting_session` and
`_execute_solution_commands`), with the external collaborators — execution
channel, local inference backend, advisor client and the two user
confirmation prompts — supplied as oracles. -/

/-- The session's external collaborators and confirmation inputs.
`exec` returns (stdout, stderr, exit status). -/
structure Env where
  exec : String → String × String × Nat
  localAnalyze : String → String → GenericInfo → String
  advise : String → String
  batchConfirm : Bool
  confirmCmd : String → Bool

/-- Observable session events, in order of occurrence. -/
inductive DiagEvent where
  | executed (command output error : String) (exitStatus : Nat)
  | described (command : String) (info : GenericInfo)
  | advisorCalled (analysis : String)
  | dispatched (command : String)
  deriving Repr, DecidableEq

/-- `_execute_solution_commands`: the list of commands actually dispatched
to the execution channel; a write operation is skipped unless its
per-command confirmation answers yes. -/
def execute_solution_commands (env : Env) : List String → List String
  | [] => []
  | command :: rest =>
    if is_write_op command ∧ env.confirmCmd command = false then
      execute_solution_commands env rest
    else
      command :: execute_solution_commands env rest

/-- The solution gate of the session loop: commands run only when some were
extracted and the batch confirmation answers yes. -/
def solutionPhase (env : Env) (solution_commands : List String) : List String :=
  if solution_commands ≠ [] ∧ env.batchConfirm then
    execute_solution_commands env solution_commands
  else []

/-- One iteration of the diagnostic loop for a single command. -/
def diagStep (env : Env) (command : String) : List DiagEvent :=
  let r := env.exec command
  let output := r.1
  let error := r.2.1
  let exit_status := r.2.2
  if exit_status ≠ 0 ∧ error ≠ "" then
    [DiagEvent.executed command output error exit_status]
  else
    let info := extract_generic_info command output
    let analysis := env.localAnalyze command output info
    let advice := env.advise analysis
    let sols := extract_commands advice "POTENTIAL_SOLUTIONS"
    DiagEvent.executed command output error exit_status ::
      DiagEvent.described command info ::
        DiagEvent.advisorCalled analysis ::
          (solutionPhase env sols).map DiagEvent.dispatched

/-- The diagnostic loop over the extracted commands. -/
def sessionLoop (env : Env) : List String → List DiagEvent
  | [] => []
  | c :: cs => diagStep env c ++ sessionLoop env cs

/-- Whether the IPv4 matcher succeeds anywhere in a string: the input
contains a word-bounded dotted-quad sequence. -/
def hasIpQuad (s : String) : Bool := scanFinds ipMatch none s.data

/-! Helper lemmas about the string primitives and the substitution engine. -/

/-- `leadsWith` characterizes list-front decomposition. -/
theorem leadsWith_iff (n : List Char) : ∀ h : List Char,
    leadsWith n h = true ↔ ∃ q, h = n ++ q := by
  induction n with
  | nil => intro h; simp [leadsWith]
  | cons a as ih =>
    intro h
    cases h with
    | nil => simp [leadsWith]
    | cons b bs =>
      simp only [leadsWith, Bool.and_eq_true, beq_iff_eq, ih, List.cons_append,
        List.cons.injEq]
      constructor
      · rintro ⟨rfl, q, rfl⟩; exact ⟨q, rfl, rfl⟩
      · rintro ⟨q, rfl, rfl⟩; exact ⟨rfl, q, rfl⟩

/-- `occursIn` characterizes contiguous containment. -/
theorem occursIn_iff (n : List Char) : ∀ h : List Char,
    occursIn n h = true ↔ ∃ p q, h = p ++ n ++ q := by
  intro h
  induction h with
  | nil =>
    simp only [occursIn, leadsWith_iff]
    constructor
    · rintro ⟨q, hq⟩; exact ⟨[], q, hq⟩
    · rintro ⟨p, q, hpq⟩
      have h0 : p = [] ∧ n = [] ∧ q = [] := by
        simpa [List.append_eq_nil] using hpq.symm
      exact ⟨[], by simp [h0.2.1]⟩
  | cons c rest ih =>
    simp only [occursIn, Bool.or_eq_true, leadsWith_iff, ih]
    constructor
    · rintro (⟨q, hq⟩ | ⟨p, q, hq⟩)
      · exact ⟨[], q, by simpa using hq⟩
      · exact ⟨c :: p, q, by simp [hq]⟩
    · rintro ⟨p, q, hq⟩
      cases p with
      | nil => exact Or.inl ⟨q, by simpa using hq⟩
      | cons p0 ps =>
        rcases List.cons.injEq .. ▸ hq with ⟨rfl, h2⟩
        exact Or.inr ⟨ps, q, by simpa using h2⟩

/-- When the matcher succeeds somewhere, the substitution pass emits the
replacement text. -/
theorem reSubGo_emits (m : Option Char → List Char → Option Nat)
    (repl : List Char) : ∀ (fuel : Nat) (prev : Option Char) (s : List Char),
    s.length ≤ fuel → scanFinds m prev s = true →
    ∃ p q, reSubGo m repl fuel prev s = p ++ repl ++ q := by
  intro fuel
  induction fuel with
  | zero =>
    intro prev s hlen hfind
    cases s with
    | nil => simp [scanFinds] at hfind
    | cons c rest => simp at hlen
  | succ f ih =>
    intro prev s hlen hfind
    cases s with
    | nil => simp [scanFinds] at hfind
    | cons c rest =>
      cases hm : m prev (c :: rest) with
      | some k =>
        refine ⟨[], reSubGo m repl f ((List.take k (c :: rest)).getLast?)
          (List.drop k (c :: rest)), ?_⟩
        simp [reSubGo, hm]
      | none =>
        have hfind' : scanFinds m (some c) rest = true := by
          simpa [scanFinds, hm] using hfind
        have hlen' : rest.length ≤ f := by simpa using Nat.le_of_succ_le_succ hlen
        obtain ⟨p, q, hpq⟩ := ih (some c) rest hlen' hfind'
        exact ⟨c :: p, q, by simp [reSubGo, hm, hpq]⟩

/-- When no line contains the section name, the scan stays outside the
section and collects nothing. -/
theorem extractLoop_no_section (sectionName : String) :
    ∀ lines : List (List Char),
    (∀ line ∈ lines, occursIn sectionName.data line = false) →
    extractLoop sectionName lines false = [] := by
  intro lines
  induction lines with
  | nil => intro _; rfl
  | cons line rest ih =>
    intro h
    have h0 : occursIn sectionName.data line = false := h line (by simp)
    have hrest : ∀ l ∈ rest, occursIn sectionName.data l = false := by
      intro l hl; exact h l (List.mem_cons_of_mem _ hl)
    simp only [extractLoop, h0, Bool.false_eq_true, if_false]
    split_ifs <;> first | exact ih hrest | simp_all

/-- A line whose trimmed text starts with one of the numbered markers also
starts with one of the recognized header markers. -/
theorem startsWithAny_headers_of_numbered (s : List Char)
    (h : startsWithAny s numberedMarks = true) :
    startsWithAny s headerMarks = true := by
  simp only [startsWithAny, numberedMarks, headerMarks, List.any_cons,
    List.any_nil, Bool.or_eq_true] at h ⊢
  tauto

/-! Claim C1: extraction of the spec's two-command example. -/

/-- The advisory text of the example: a `DIAGNOSTIC_COMMANDS` header,
two numbered command lines, an `ANALYSIS:` header and an unrelated line. -/
def sampleAdvice : String :=
  "DIAGNOSTIC_COMMANDS\n1. uptime\n2. free -h\nANALYSIS: load and memory figures\nsome unrelated trailing text"

/-- C1 counterexample: on the spec's example input the extractor does not
return `["uptime", "free -h"]` — lines starting with the numbered markers
`1.`–`4.` are treated as headers and discarded, never collected. -/
theorem c1_counterexample :
    extract_commands sampleAdvice "DIAGNOSTIC_COMMANDS" ≠ ["uptime", "free -h"] := by
  decide

/-- C1 (amended): on input with a `DIAGNOSTIC_COMMANDS` header followed by
`1. uptime`, `2. free -h`, an `ANALYSIS:` header and unrelated lines, the
extractor returns the empty list, because every line starting with a
numbered marker `1.`–`4.` is discarded by the header check. -/
theorem c1_amended :
    extract_commands sampleAdvice "DIAGNOSTIC_COMMANDS" = [] := by
  decide

/-! Claim C8: the extractor is total and degrades to the empty list. -/

/-- C8: command extraction is total — it returns a (possibly empty) list for
every input — and on text none of whose lines mentions the section name it
returns the empty list rather than failing. -/
theorem c8_extract_total (text sectionName : String)
    (h : ∀ line ∈ splitNl text.data, occursIn sectionName.data line = false) :
    (∃ cs : List String, extract_commands text sectionName = cs) ∧
    extract_commands text sectionName = [] := by
  refine ⟨⟨_, rfl⟩, ?_⟩
  exact extractLoop_no_section sectionName (splitNl text.data) h

/-- C8 witness: malformed, section-free text yields the empty list. -/
theorem c8_extract_total_witness :
    (∃ cs : List String,
      extract_commands "garbage ###\nno sections at all" "DIAGNOSTIC_COMMANDS" = cs) ∧
    extract_commands "garbage ###\nno sections at all" "DIAGNOSTIC_COMMANDS" = [] :=
  c8_extract_total "garbage ###\nno sections at all" "DIAGNOSTIC_COMMANDS" (by decide)

/-! Claim C10: numbered lines `5.` and above are commands, `1.`–`4.` never are. -/

/-- C10: inside the target section a line `5. uptime` is collected with its
numeric marker stripped, yielding `uptime`; and any line whose trimmed text
starts with `1.`, `2.`, `3.` or `4.` (and does not itself mention the
section name) is discarded without affecting the in-section flag. -/
theorem c10_numbered_markers :
    (∀ rest : List (List Char),
      extractLoop "DIAGNOSTIC_COMMANDS" ("5. uptime".data :: rest) true =
        "uptime" :: extractLoop "DIAGNOSTIC_COMMANDS" rest true) ∧
    (∀ (sectionName : String) (line : List Char) (rest : List (List Char))
        (inSection : Bool),
      startsWithAny (pyStrip line) numberedMarks = true →
      occursIn sectionName.data line = false →
      extractLoop sectionName (line :: rest) inSection =
        extractLoop sectionName rest inSection) := by
  constructor
  · intro rest
    rfl
  · intro sectionName line rest inSection hnum hocc
    have hhdr := startsWithAny_headers_of_numbered _ hnum
    simp [extractLoop, hocc, hhdr, hnum]

/-- C10 witness: the two parts applied at concrete inputs. -/
theorem c10_numbered_markers_witness :
    extractLoop "DIAGNOSTIC_COMMANDS" ["5. uptime".data] true = ["uptime"] ∧
    extractLoop "DIAGNOSTIC_COMMANDS" ["2. free -h".data] false =
      extractLoop "DIAGNOSTIC_COMMANDS" [] false :=
  ⟨c10_numbered_markers.1 [],
    c10_numbered_markers.2 "DIAGNOSTIC_COMMANDS" "2. free -h".data [] false
      (by decide) (by decide)⟩

/-! Claim C2: mixed solution batch with a declined mutating command. -/

/-- C2: in a batch of one mutating and one non-mutating command, with batch
confirmation yes and the mutating command's own confirmation no, exactly the
non-mutating command is dispatched to the execution channel — in either
batch order. -/
theorem c2_mixed_batch (env : Env) (m n : String)
    (hm : is_write_op m = true) (hn : is_write_op n = false)
    (hc : env.confirmCmd m = false) (hb : env.batchConfirm = true) :
    solutionPhase env [m, n] = [n] ∧ solutionPhase env [n, m] = [n] := by
  constructor <;>
    simp [solutionPhase, execute_solution_commands, hm, hn, hc, hb]

/-- A concrete environment standing in for the external collaborators:
the channel reports a failure, the batch gate answers yes and every
per-command confirmation answers no. -/
def testEnv : Env :=
  { exec := fun _ => ("", "boom", 1)
    localAnalyze := fun _ _ _ => "local analysis text"
    advise := fun _ => "advice text"
    batchConfirm := true
    confirmCmd := fun _ => false }

/-- C2 witness: the restart command is skipped, `uptime` is dispatched. -/
theorem c2_mixed_batch_witness :
    solutionPhase testEnv ["sudo systemctl restart java-app", "uptime"] = ["uptime"] ∧
    solutionPhase testEnv ["uptime", "sudo systemctl restart java-app"] = ["uptime"] :=
  c2_mixed_batch testEnv "sudo systemctl restart java-app" "uptime"
    (by decide) (by decide) rfl rfl

/-! Claim C5: characterization of the mutating-command classifier. -/

/-- C5: a command is classified as mutating exactly when its lowercased text
contains one of the nine vocabulary members as a substring; in particular
the restart command is mutating and `uptime` is not. -/
theorem c5_is_write_op_iff :
    (∀ command : String, is_write_op command = true ↔
      ∃ op ∈ write_operations,
        ∃ p q, lowerList command.data = p ++ op.data ++ q) ∧
    is_write_op "sudo systemctl restart java-app" = true ∧
    is_write_op "uptime" = false := by
  refine ⟨fun command => ?_, by decide, by decide⟩
  simp only [is_write_op, List.any_eq_true, occursIn_iff]

/-! Claim C6: characterization of the result descriptor. -/

/-- C6: the descriptor's error flag holds exactly when the lowercased output
contains `error` or `fail`; its status is `error` exactly when the
lowercased output contains one of `error`, `fail`, `not found`,
`permission denied`, and `success` exactly otherwise; and on
`describe("df -h", "Error: permission denied")` the status is `error` with
the error flag set. -/
theorem c6_descriptor :
    (∀ command output : String,
      ((extract_generic_info command output).contains_errors = true ↔
        (occursIn "error".data (lowerList output.data) = true ∨
          occursIn "fail".data (lowerList output.data) = true)) ∧
      ((extract_generic_info command output).exit_status = "error" ↔
        (occursIn "error".data (lowerList output.data) = true ∨
          occursIn "fail".data (lowerList output.data) = true ∨
          occursIn "not found".data (lowerList output.data) = true ∨
          occursIn "permission denied".data (lowerList output.data) = true)) ∧
      ((extract_generic_info command output).exit_status = "success" ↔
        ¬ (occursIn "error".data (lowerList output.data) = true ∨
          occursIn "fail".data (lowerList output.data) = true ∨
          occursIn "not found".data (lowerList output.data) = true ∨
          occursIn "permission denied".data (lowerList output.data) = true))) ∧
    (extract_generic_info "df -h" "Error: permission denied").exit_status =
      "error" ∧
    (extract_generic_info "df -h" "Error: permission denied").contains_errors =
      true := by
  refine ⟨fun command output => ⟨?_, ?_, ?_⟩, by decide, by decide⟩
  · simp [extract_generic_info, Bool.or_eq_true]
  · by_cases h : (occursIn "error".data (lowerList output.data) = true ∨
        occursIn "fail".data (lowerList output.data) = true ∨
        occursIn "not found".data (lowerList output.data) = true ∨
        occursIn "permission denied".data (lowerList output.data) = true) <;>
      simp [extract_generic_info, List.any_cons, List.any_nil,
        Bool.or_eq_true, h]
  · by_cases h : (occursIn "error".data (lowerList output.data) = true ∨
        occursIn "fail".data (lowerList output.data) = true ∨
        occursIn "not found".data (lowerList output.data) = true ∨
        occursIn "permission denied".data (lowerList output.data) = true) <;>
      simp [extract_generic_info, List.any_cons, List.any_nil,
        Bool.or_eq_true, h]

/-! Claim C7: error handling of the diagnostic loop. -/

/-- C7: for a diagnostic command whose execution yields a non-zero exit
status and non-empty stderr, the loop records only the execution and skips
the descriptor, the local analysis and the follow-up advisory call; in every
other case the descriptor is computed and the advisor is called again with
the local analysis of that descriptor; and the loop always continues with
the remaining commands. -/
theorem c7_command_failure_skips (env : Env) (command : String)
    (rest : List String) (output error : String) (code : Nat)
    (h : env.exec command = (output, error, code)) :
    (code ≠ 0 ∧ error ≠ "" →
      diagStep env command = [DiagEvent.executed command output error code]) ∧
    (code = 0 ∨ error = "" →
      diagStep env command =
        DiagEvent.executed command output error code ::
          DiagEvent.described command (extract_generic_info command output) ::
            DiagEvent.advisorCalled
              (env.localAnalyze command output
                (extract_generic_info command output)) ::
              (solutionPhase env
                (extract_commands
                  (env.advise (env.localAnalyze command output
                    (extract_generic_info command output)))
                  "POTENTIAL_SOLUTIONS")).map DiagEvent.dispatched) ∧
    sessionLoop env (command :: rest) =
      diagStep env command ++ sessionLoop env rest := by
  refine ⟨?_, ?_, rfl⟩
  · intro hfail
    simp only [diagStep, h]
    rw [if_pos hfail]
  · intro hok
    simp only [diagStep, h]
    rw [if_neg]
    rintro ⟨hc, he⟩
    rcases hok with h0 | h0
    · exact hc h0
    · exact he h0

/-- C7 witness: in `testEnv` the channel reports exit status 1 with stderr
`boom`, so the diagnostic step records the execution alone, and the loop
equation holds at a concrete command list. -/
theorem c7_command_failure_skips_witness :
    diagStep testEnv "df -h" = [DiagEvent.executed "df -h" "" "boom" 1] ∧
    sessionLoop testEnv ["df -h"] =
      diagStep testEnv "df -h" ++ sessionLoop testEnv [] :=
  ⟨(c7_command_failure_skips testEnv "df -h" [] "" "boom" 1 rfl).1
      (by decide),
    (c7_command_failure_skips testEnv "df -h" [] "" "boom" 1 rfl).2.2⟩

/-! Claim C3: idempotence of the sanitizer. -/

/-- C3 counterexample: sanitization is not idempotent. Two email-shaped
tokens separated by a single local-part character sanitize to two adjacent
placeholders, and a second pass matches across the junction and rewrites
the text again. -/
theorem c3_counterexample :
    sanitize_output (sanitize_output "a@b.cc-d@e.ff") ≠
      sanitize_output "a@b.cc-d@e.ff" := by
  decide

/-- C3 (amended): sanitization is idempotent on inputs whose redacted spans
do not abut one another — in particular on each of these representative
inputs exercising all seven rules — but not on every string, since adjacent
placeholders from two email matches can be re-matched by a second pass. -/
theorem c3_idempotent_on_samples :
    sanitize_output (sanitize_output "Server 192.168.1.1 responding") =
      sanitize_output "Server 192.168.1.1 responding" ∧
    sanitize_output (sanitize_output "contact admin@example.com for access") =
      sanitize_output "contact admin@example.com for access" ∧
    sanitize_output (sanitize_output "password: hunter2") =
      sanitize_output "password: hunter2" ∧
    sanitize_output (sanitize_output "/home/alice/file.txt") =
      sanitize_output "/home/alice/file.txt" ∧
    sanitize_output (sanitize_output "/var/log/nginx/access.log") =
      sanitize_output "/var/log/nginx/access.log" ∧
    sanitize_output (sanitize_output "deadbeefdeadbeefdeadbeefdeadbeef") =
      sanitize_output "deadbeefdeadbeefdeadbeefdeadbeef" ∧
    sanitize_output (sanitize_output "ABCDEFGHIJ1234567890") =
      sanitize_output "ABCDEFGHIJ1234567890" ∧
    sanitize_output (sanitize_output "monkey=5") =
      sanitize_output "monkey=5" := by
  decide

/-! Claim C4: IPv4 redaction and the fate of its placeholder. -/

/-- C4 counterexample: `a@1.2.3.4` contains a word-bounded dotted quad, yet
the final sanitize output does not contain the placeholder
`XXX.XXX.XXX.XXX` — the email rule rewrites the placeholder away. -/
theorem c4_counterexample :
    hasIpQuad "a@1.2.3.4" = true ∧
    occursIn "XXX.XXX.XXX.XXX".data (sanitize_output "a@1.2.3.4").data =
      false := by
  decide

/-! C4 (amended) is settled at the end of this file, after the lemmas
establishing that no word-bounded dotted quad survives the pipeline. -/

/-! Claim C9: the redaction rule needs no word boundary. -/

/-- Stepping lemma for the engine when the matcher declines the position. -/
theorem reSubGo_cons_none (m : Option Char → List Char → Option Nat)
    (repl : List Char) (fuel : Nat) (prev : Option Char) (c : Char)
    (rest : List Char) (h : m prev (c :: rest) = none) :
    reSubGo m repl (fuel + 1) prev (c :: rest) =
      c :: reSubGo m repl fuel (some c) rest := by
  simp [reSubGo, h]

/-- A case-insensitive literal match fails on a cons pair whenever it
already fails on the tails. -/
theorem leadsWithCI_cons_false (a : Char) (as : List Char) (c : Char)
    (cs : List Char) (h : leadsWithCI as cs = false) :
    leadsWithCI (a :: as) (c :: cs) = false := by
  simp [leadsWithCI, h]

/-- A keyword alternative whose literal part fails to match contributes no
redaction match. -/
theorem redactTry_none (kw : List Char) (s : List Char)
    (h : leadsWithCI kw s = false) : redactTry kw s = none := by
  simp [redactTry, h]

/-- No keyword alternative matches at the head of `c` followed by `key=5`,
whatever the character `c` is: every alternative fails on the second
character already. -/
theorem redactMatch_cons (c : Char) :
    redactMatch (c :: "key=5".data) = none := by
  have w1 : redactTry "password".data (c :: "key=5".data) = none :=
    redactTry_none _ _
      (leadsWithCI_cons_false 'p' "assword".data c "key=5".data (by decide))
  have w2 : redactTry "pwd".data (c :: "key=5".data) = none :=
    redactTry_none _ _
      (leadsWithCI_cons_false 'p' "wd".data c "key=5".data (by decide))
  have w3 : redactTry "passwd".data (c :: "key=5".data) = none :=
    redactTry_none _ _
      (leadsWithCI_cons_false 'p' "asswd".data c "key=5".data (by decide))
  have w4 : redactTry "key".data (c :: "key=5".data) = none :=
    redactTry_none _ _
      (leadsWithCI_cons_false 'k' "ey".data c "key=5".data (by decide))
  have w5 : redactTry "token".data (c :: "key=5".data) = none :=
    redactTry_none _ _
      (leadsWithCI_cons_false 't' "oken".data c "key=5".data (by decide))
  have w6 : redactTry "secret".data (c :: "key=5".data) = none :=
    redactTry_none _ _
      (leadsWithCI_cons_false 's' "ecret".data c "key=5".data (by decide))
  simp only [redactMatch, redactKeywords, tryEach, w1, w2, w3, w4, w5, w6]

/-- C9: the key-value redaction matches with no word boundary — for every
character `c`, the redaction stage rewrites `c` + `key=5` to
`c` + `REDACTED`, even when `c` extends the word (as in `monkey=5`, whose
full sanitize output is `monREDACTED`). -/
theorem c9_redaction_no_boundary :
    (∀ c : Char, redactStage (c :: "key=5".data) = c :: "REDACTED".data) ∧
    sanitize_output "monkey=5" = "monREDACTED" := by
  refine ⟨fun c => ?_, by decide⟩
  have hm : redactMatchP none (c :: "key=5".data) = none := redactMatch_cons c
  show reSubGo redactMatchP "REDACTED".data (6 + 1) none (c :: "key=5".data) =
    c :: "REDACTED".data
  rw [reSubGo_cons_none _ _ _ _ _ _ hm]
  rfl

/-! Lemmas establishing that no word-bounded dotted quad survives the
sanitizer: the IP stage removes every one, and the replacement texts of the
later stages neither contain digits nor expose a fresh word boundary next
to surviving digits. -/

/-- Unfolding lemma for `takeCount` on a cons cell. -/
theorem takeCount_cons (p : Char → Bool) (c : Char) (l : List Char) :
    takeCount p (c :: l) = if p c then takeCount p l + 1 else 0 := by
  by_cases h : p c <;> simp [takeCount, List.takeWhile_cons, h]

/-- The counted run never exceeds the text. -/
theorem takeCount_le (p : Char → Bool) (l : List Char) :
    takeCount p l ≤ l.length := by
  induction l with
  | nil => simp [takeCount]
  | cons c rest ih =>
    rw [takeCount_cons]
    by_cases h : p c <;> simp [h] <;> omega

/-- A run that stops inside the left part ignores the right part. -/
theorem takeCount_append_of_lt (p : Char → Bool) (z u : List Char)
    (h : takeCount p z < z.length) :
    takeCount p (z ++ u) = takeCount p z := by
  induction z with
  | nil => simp [takeCount] at h
  | cons c rest ih =>
    rw [List.cons_append, takeCount_cons, takeCount_cons]
    by_cases hc : p c
    · rw [takeCount_cons] at h
      simp [hc] at h ⊢
      exact ih (by omega)
    · simp [hc]

/-- A run stopped by the first right-hand character equals the run of the
left part alone. -/
theorem takeCount_append_stop (p : Char → Bool) (z u : List Char) (h0 : Char)
    (hh : p h0 = false) :
    takeCount p (z ++ h0 :: u) = takeCount p z := by
  induction z with
  | nil => simp [takeCount_cons, hh, takeCount]
  | cons c rest ih =>
    rw [List.cons_append, takeCount_cons, takeCount_cons, ih]

/-- Dropping at most the left part of an append stays inside it. -/
theorem drop_append_of_le (n : Nat) (z u : List Char) (h : n ≤ z.length) :
    List.drop n (z ++ u) = List.drop n z ++ u := by
  rw [List.drop_append_eq_append_drop, Nat.sub_eq_zero_of_le h, List.drop_zero]

/-- Dropping strictly less than the length leaves something. -/
theorem drop_ne_nil_of_lt (n : Nat) (z : List Char) (h : n < z.length) :
    List.drop n z ≠ [] := by
  intro hc
  have := congrArg List.length hc
  simp [List.length_drop] at this
  omega

/-- Elimination form of a successful `dotGroup`. -/
theorem dotGroup_some_elim (s : List Char) (kc : Nat) (r : List Char)
    (h : dotGroup s = some (kc, r)) :
    1 ≤ takeCount Char.isDigit s ∧ takeCount Char.isDigit s ≤ 3 ∧
    kc = takeCount Char.isDigit s + 1 ∧
    s.drop (takeCount Char.isDigit s) = '.' :: r := by
  simp only [dotGroup] at h
  split at h
  · split at h
    · next heq =>
      simp only [Option.some.injEq, Prod.mk.injEq] at h
      refine ⟨by omega, by omega, by omega, ?_⟩
      rw [heq, h.2]
    · exact absurd h (by simp)
  · exact absurd h (by simp)

/-- Introduction form of a successful `dotGroup`. -/
theorem dotGroup_some_intro (s r : List Char) (mc : Nat)
    (hm : takeCount Char.isDigit s = mc) (h1 : 1 ≤ mc) (h3 : mc ≤ 3)
    (hd : s.drop mc = '.' :: r) : dotGroup s = some (mc + 1, r) := by
  simp [dotGroup, hm, h1, h3, hd]

/-- The IPv4 matcher fails wherever the head is not a digit. -/
theorem ipMatch_nondigit (prev : Option Char) (c : Char) (t : List Char)
    (hd : c.isDigit = false) : ipMatch prev (c :: t) = none := by
  have h0 : takeCount Char.isDigit (c :: t) = 0 := by simp [takeCount_cons, hd]
  simp [ipMatch, dotGroup, h0]

/-- Elimination form of a successful IPv4 match. -/
theorem ipMatch_some_elim (prev : Option Char) (s : List Char) (k : Nat)
    (h : ipMatch prev s = some k) :
    ∃ c s' k1 r1 k2 r2 k3 r3, s = c :: s' ∧ bndAt prev c = true ∧
      dotGroup s = some (k1, r1) ∧ dotGroup r1 = some (k2, r2) ∧
      dotGroup r2 = some (k3, r3) ∧
      1 ≤ takeCount Char.isDigit r3 ∧ takeCount Char.isDigit r3 ≤ 3 ∧
      endBnd (r3.drop (takeCount Char.isDigit r3)) = true ∧
      k = k1 + k2 + k3 + takeCount Char.isDigit r3 := by
  cases s with
  | nil => simp [ipMatch] at h
  | cons c s' =>
    simp only [ipMatch] at h
    split at h
    · next hb =>
      split at h
      · exact absurd h (by simp)
      · next k1 r1 hdg1 =>
        split at h
        · exact absurd h (by simp)
        · next k2 r2 hdg2 =>
          split at h
          · exact absurd h (by simp)
          · next k3 r3 hdg3 =>
            split at h
            · next hcond =>
              simp only [Option.some.injEq] at h
              exact ⟨c, s', k1, r1, k2, r2, k3, r3, rfl, hb, hdg1, hdg2,
                hdg3, hcond.1, hcond.2.1, hcond.2.2, h.symm⟩
            · exact absurd h (by simp)
    · exact absurd h (by simp)

/-- Introduction form of a successful IPv4 match. -/
theorem ipMatch_some_intro (prev : Option Char) (c : Char)
    (s' r1 r2 r3 : List Char) (k1 k2 k3 : Nat) (hb : bndAt prev c = true)
    (h1 : dotGroup (c :: s') = some (k1, r1))
    (h2 : dotGroup r1 = some (k2, r2)) (h3 : dotGroup r2 = some (k3, r3))
    (hm1 : 1 ≤ takeCount Char.isDigit r3)
    (hm3 : takeCount Char.isDigit r3 ≤ 3)
    (he : endBnd (r3.drop (takeCount Char.isDigit r3)) = true) :
    ipMatch prev (c :: s') =
      some (k1 + k2 + k3 + takeCount Char.isDigit r3) := by
  simp [ipMatch, hb, h1, h2, h3, hm1, hm3, he]

/-- A successful `dotGroup` consumes at least one character. -/
theorem dotGroup_pos (s : List Char) (kc : Nat) (r : List Char)
    (h : dotGroup s = some (kc, r)) : 1 ≤ kc := by
  obtain ⟨_, _, hkc, _⟩ := dotGroup_some_elim _ _ _ h
  omega

/-- A successful IPv4 match consumes at least one character. -/
theorem ipMatch_pos (prev : Option Char) (s : List Char) (k : Nat)
    (h : ipMatch prev s = some k) : 1 ≤ k := by
  obtain ⟨c, s', k1, r1, k2, r2, k3, r3, _, _, hdg1, _, _, hm1, _, _, hk⟩ :=
    ipMatch_some_elim _ _ _ h
  have := dotGroup_pos _ _ _ hdg1
  omega

/-- A `dotGroup` success on text whose junction character is neither a
digit nor a dot lies strictly inside the part before the junction, and
therefore transfers to the same prefix followed by anything. -/
theorem dotGroup_transfer (z u : List Char) (h0 : Char) (kc : Nat)
    (r1 : List Char) (hd : h0.isDigit = false) (hdot : ¬ h0 = '.')
    (h : dotGroup (z ++ h0 :: u) = some (kc, r1)) :
    ∃ z₀, r1 = z₀ ++ h0 :: u ∧
      ∀ v, dotGroup (z ++ v) = some (kc, z₀ ++ v) := by
  obtain ⟨hm1, hm3, hkc, hdrop⟩ := dotGroup_some_elim _ _ _ h
  have hstop : takeCount Char.isDigit (z ++ h0 :: u) = takeCount Char.isDigit z :=
    takeCount_append_stop _ _ _ _ hd
  have hle : takeCount Char.isDigit z ≤ z.length := takeCount_le _ _
  rcases Nat.lt_or_ge (takeCount Char.isDigit z) z.length with hlt | hge
  · have heq : List.drop (takeCount Char.isDigit z) (z ++ h0 :: u) =
        List.drop (takeCount Char.isDigit z) z ++ h0 :: u :=
      drop_append_of_le _ _ _ (Nat.le_of_lt hlt)
    obtain ⟨d, z₀, hdz⟩ : ∃ d z₀,
        List.drop (takeCount Char.isDigit z) z = d :: z₀ := by
      cases hh : List.drop (takeCount Char.isDigit z) z with
      | nil => exact absurd hh (drop_ne_nil_of_lt _ _ hlt)
      | cons d z₀ => exact ⟨d, z₀, rfl⟩
    rw [hstop, heq, hdz] at hdrop
    have hdd : d = '.' ∧ r1 = z₀ ++ h0 :: u := by
      have := hdrop
      simp only [List.cons_append, List.cons.injEq] at this
      exact ⟨this.1, this.2.symm⟩
    refine ⟨z₀, hdd.2, fun v => ?_⟩
    have hcnt : takeCount Char.isDigit (z ++ v) = takeCount Char.isDigit z :=
      takeCount_append_of_lt _ _ _ hlt
    have hkc' : kc = takeCount Char.isDigit z + 1 := by rw [hkc, hstop]
    rw [hkc']
    apply dotGroup_some_intro
    · exact hcnt
    · omega
    · rw [hstop] at hm3; omega
    · rw [drop_append_of_le _ _ _ (Nat.le_of_lt hlt), hdz, hdd.1]
      simp
  · exfalso
    have hzl : takeCount Char.isDigit z = z.length := Nat.le_antisymm hle hge
    rw [hstop, hzl, List.drop_left] at hdrop
    simp only [List.cons.injEq] at hdrop
    exact hdot hdrop.1

/-- The final digit run of a match, when the junction character is a
non-digit word character, stops strictly inside the part before the
junction, and run length and end boundary transfer to any continuation. -/
theorem finRun_transfer_word (z u : List Char) (h0 : Char)
    (hw : isWordChar h0 = true) (hd : h0.isDigit = false)
    (hm1 : 1 ≤ takeCount Char.isDigit (z ++ h0 :: u))
    (he : endBnd ((z ++ h0 :: u).drop
      (takeCount Char.isDigit (z ++ h0 :: u))) = true) :
    ∀ v, takeCount Char.isDigit (z ++ v) =
        takeCount Char.isDigit (z ++ h0 :: u) ∧
      endBnd ((z ++ v).drop (takeCount Char.isDigit (z ++ h0 :: u))) = true := by
  have hstop : takeCount Char.isDigit (z ++ h0 :: u) = takeCount Char.isDigit z :=
    takeCount_append_stop _ _ _ _ hd
  have hle : takeCount Char.isDigit z ≤ z.length := takeCount_le _ _
  rcases Nat.lt_or_ge (takeCount Char.isDigit z) z.length with hlt | hge
  · intro v
    obtain ⟨d, z₀, hdz⟩ : ∃ d z₀,
        List.drop (takeCount Char.isDigit z) z = d :: z₀ := by
      cases hh : List.drop (takeCount Char.isDigit z) z with
      | nil => exact absurd hh (drop_ne_nil_of_lt _ _ hlt)
      | cons d z₀ => exact ⟨d, z₀, rfl⟩
    have heq1 : List.drop (takeCount Char.isDigit z) (z ++ h0 :: u) =
        (d :: z₀) ++ h0 :: u := by
      rw [drop_append_of_le _ _ _ (Nat.le_of_lt hlt), hdz]
    have heq2 : List.drop (takeCount Char.isDigit z) (z ++ v) =
        (d :: z₀) ++ v := by
      rw [drop_append_of_le _ _ _ (Nat.le_of_lt hlt), hdz]
    rw [hstop, heq1] at he
    refine ⟨by rw [hstop]; exact takeCount_append_of_lt _ _ _ hlt, ?_⟩
    rw [hstop, heq2]
    simpa [endBnd] using he
  · exfalso
    have hzl : takeCount Char.isDigit z = z.length := Nat.le_antisymm hle hge
    rw [hstop, hzl, List.drop_left] at he
    simp [endBnd, hw] at he

/-- The final digit run and end boundary transfer when the junction
character on both sides is the same non-digit character. -/
theorem finRun_transfer_same (z u u2 : List Char) (h0 : Char)
    (hd : h0.isDigit = false)
    (hm1 : 1 ≤ takeCount Char.isDigit (z ++ h0 :: u))
    (he : endBnd ((z ++ h0 :: u).drop
      (takeCount Char.isDigit (z ++ h0 :: u))) = true) :
    takeCount Char.isDigit (z ++ h0 :: u2) =
        takeCount Char.isDigit (z ++ h0 :: u) ∧
      endBnd ((z ++ h0 :: u2).drop
        (takeCount Char.isDigit (z ++ h0 :: u))) = true := by
  have hstop : takeCount Char.isDigit (z ++ h0 :: u) = takeCount Char.isDigit z :=
    takeCount_append_stop _ _ _ _ hd
  have hstop2 : takeCount Char.isDigit (z ++ h0 :: u2) = takeCount Char.isDigit z :=
    takeCount_append_stop _ _ _ _ hd
  have hle : takeCount Char.isDigit z ≤ z.length := takeCount_le _ _
  rcases Nat.lt_or_ge (takeCount Char.isDigit z) z.length with hlt | hge
  · obtain ⟨d, z₀, hdz⟩ : ∃ d z₀,
        List.drop (takeCount Char.isDigit z) z = d :: z₀ := by
      cases hh : List.drop (takeCount Char.isDigit z) z with
      | nil => exact absurd hh (drop_ne_nil_of_lt _ _ hlt)
      | cons d z₀ => exact ⟨d, z₀, rfl⟩
    have heq1 : List.drop (takeCount Char.isDigit z) (z ++ h0 :: u) =
        (d :: z₀) ++ h0 :: u := by
      rw [drop_append_of_le _ _ _ (Nat.le_of_lt hlt), hdz]
    have heq2 : List.drop (takeCount Char.isDigit z) (z ++ h0 :: u2) =
        (d :: z₀) ++ h0 :: u2 := by
      rw [drop_append_of_le _ _ _ (Nat.le_of_lt hlt), hdz]
    rw [hstop, heq1] at he
    refine ⟨by rw [hstop, hstop2], ?_⟩
    rw [hstop, heq2]
    simpa [endBnd] using he
  · have hzl : takeCount Char.isDigit z = z.length := Nat.le_antisymm hle hge
    refine ⟨by rw [hstop, hstop2], ?_⟩
    rw [hstop, hzl, List.drop_left]
    rw [hstop, hzl, List.drop_left] at he
    simpa [endBnd] using he

/-- A full IPv4 match on text whose junction character is a non-digit word
character lies strictly inside the part before the junction and transfers
to the same prefix followed by anything. -/
theorem ipMatch_transfer_word (prev : Option Char) (z u : List Char)
    (h0 : Char) (k : Nat) (hw : isWordChar h0 = true)
    (hd : h0.isDigit = false) (h : ipMatch prev (z ++ h0 :: u) = some k) :
    ∀ v, ipMatch prev (z ++ v) = some k := by
  have hdot : ¬ h0 = '.' := by
    intro hc; rw [hc] at hw; exact absurd hw (by decide)
  obtain ⟨c, s', k1, r1, k2, r2, k3, r3, hcons, hb, hdg1, hdg2, hdg3, hm1,
    hm3, he, hk⟩ := ipMatch_some_elim _ _ _ h
  cases z with
  | nil =>
    exfalso
    obtain ⟨hm1', _, _, _⟩ := dotGroup_some_elim _ _ _ hdg1
    rw [List.nil_append, takeCount_cons, hd] at hm1'
    simp at hm1'
  | cons zc ztl =>
    intro v
    have hcz : c = zc ∧ s' = ztl ++ h0 :: u := by
      have := hcons
      simp only [List.cons_append, List.cons.injEq] at this
      exact ⟨this.1.symm, this.2.symm⟩
    obtain ⟨z₀, hr1, hv1⟩ :=
      dotGroup_transfer (zc :: ztl) u h0 k1 r1 hd hdot (by
        simpa using hdg1)
    obtain ⟨z₁, hr2, hv2⟩ := dotGroup_transfer z₀ u h0 k2 r2 hd hdot
      (by rw [hr1] at hdg2; exact hdg2)
    obtain ⟨z₂, hr3, hv3⟩ := dotGroup_transfer z₁ u h0 k3 r3 hd hdot
      (by rw [hr2] at hdg3; exact hdg3)
    have hfin := finRun_transfer_word z₂ u h0 hw hd
      (by rw [hr3] at hm1; exact hm1) (by rw [hr3] at he; exact he) v
    have goal1 : ipMatch prev ((zc :: ztl) ++ v) =
        some (k1 + k2 + k3 + takeCount Char.isDigit (z₂ ++ v)) := by
      have hbz : bndAt prev zc = true := by rw [hcz.1] at hb; exact hb
      have hcons2 : (zc :: ztl) ++ v = zc :: (ztl ++ v) := by simp
      rw [hcons2]
      exact ipMatch_some_intro prev zc (ztl ++ v) (z₀ ++ v) (z₁ ++ v)
        (z₂ ++ v) k1 k2 k3 hbz (by simpa using hv1 v) (hv2 v) (hv3 v)
        (by rw [hfin.1, ← hr3]; exact hm1)
        (by rw [hfin.1, ← hr3]; exact hm3)
        (by rw [hfin.1]; exact hfin.2)
    rw [goal1, hk, hr3, hfin.1]

/-- A full IPv4 match transfers when both continuations start with the same
non-digit, non-dot character. -/
theorem ipMatch_transfer_same (prev : Option Char) (z u u2 : List Char)
    (h0 : Char) (k : Nat) (hd : h0.isDigit = false) (hdot : ¬ h0 = '.')
    (h : ipMatch prev (z ++ h0 :: u) = some k) :
    ipMatch prev (z ++ h0 :: u2) = some k := by
  obtain ⟨c, s', k1, r1, k2, r2, k3, r3, hcons, hb, hdg1, hdg2, hdg3, hm1,
    hm3, he, hk⟩ := ipMatch_some_elim _ _ _ h
  cases z with
  | nil =>
    exfalso
    obtain ⟨hm1', _, _, _⟩ := dotGroup_some_elim _ _ _ hdg1
    rw [List.nil_append, takeCount_cons, hd] at hm1'
    simp at hm1'
  | cons zc ztl =>
    have hcz : c = zc ∧ s' = ztl ++ h0 :: u := by
      have := hcons
      simp only [List.cons_append, List.cons.injEq] at this
      exact ⟨this.1.symm, this.2.symm⟩
    obtain ⟨z₀, hr1, hv1⟩ :=
      dotGroup_transfer (zc :: ztl) u h0 k1 r1 hd hdot (by
        simpa using hdg1)
    obtain ⟨z₁, hr2, hv2⟩ := dotGroup_transfer z₀ u h0 k2 r2 hd hdot
      (by rw [hr1] at hdg2; exact hdg2)
    obtain ⟨z₂, hr3, hv3⟩ := dotGroup_transfer z₁ u h0 k3 r3 hd hdot
      (by rw [hr2] at hdg3; exact hdg3)
    have hfin := finRun_transfer_same z₂ u u2 h0 hd
      (by rw [hr3] at hm1; exact hm1) (by rw [hr3] at he; exact he)
    have goal1 : ipMatch prev ((zc :: ztl) ++ h0 :: u2) =
        some (k1 + k2 + k3 + takeCount Char.isDigit (z₂ ++ h0 :: u2)) := by
      have hbz : bndAt prev zc = true := by rw [hcz.1] at hb; exact hb
      have hcons2 : (zc :: ztl) ++ h0 :: u2 = zc :: (ztl ++ h0 :: u2) := by
        simp
      rw [hcons2]
      exact ipMatch_some_intro prev zc (ztl ++ h0 :: u2) (z₀ ++ h0 :: u2)
        (z₁ ++ h0 :: u2) (z₂ ++ h0 :: u2) k1 k2 k3 hbz
        (by simpa using hv1 (h0 :: u2)) (hv2 (h0 :: u2)) (hv3 (h0 :: u2))
        (by rw [hfin.1, ← hr3]; exact hm1)
        (by rw [hfin.1, ← hr3]; exact hm3)
        (by rw [hfin.1]; exact hfin.2)
    rw [goal1, hk, hr3, hfin.1]

/-- Splitting a failed scan over a cons cell. -/
theorem scanFinds_false_elim (m : Option Char → List Char → Option Nat)
    (prev : Option Char) (c : Char) (rest : List Char)
    (h : scanFinds m prev (c :: rest) = false) :
    m prev (c :: rest) = none ∧ scanFinds m (some c) rest = false := by
  have h' := h
  simp only [scanFinds, Bool.or_eq_false_iff] at h'
  exact ⟨Option.not_isSome_iff_eq_none.mp (by simp [h'.1]), h'.2⟩

/-- Digits are word characters. -/
theorem isWordChar_of_digit (c : Char) (h : c.isDigit = true) :
    isWordChar c = true := by
  simp [isWordChar, Char.isAlphanum, h]

/-- A word character in front blocks every IPv4 match at the first
position, so quad-freedom survives replacing the preceding context by any
word character. -/
theorem scanFinds_prevWord (prevW prev : Option Char) (t : List Char)
    (hW : wordStatusO prevW = true)
    (h : scanFinds ipMatch prev t = false) :
    scanFinds ipMatch prevW t = false := by
  cases t with
  | nil => rfl
  | cons c rest =>
    obtain ⟨_, htail⟩ := scanFinds_false_elim _ _ _ _ h
    have hm : ipMatch prevW (c :: rest) = none := by
      by_cases hd : c.isDigit = true
      · have hw := isWordChar_of_digit c hd
        simp [ipMatch, bndAt, hW, hw]
      · exact ipMatch_nondigit _ _ _ (by simpa using hd)
    simp [scanFinds, hm, htail]

/-- The character seen by the scanner when it resumes after a block: the
block's last character, or the old context if the block is empty. -/
def lastPrev (x : List Char) (prev : Option Char) : Option Char :=
  match x.getLast? with
  | some l => some l
  | none => prev

/-- `lastPrev` steps over a cons cell. -/
theorem lastPrev_cons (c : Char) (xs : List Char) (prev : Option Char) :
    lastPrev (c :: xs) prev = lastPrev xs (some c) := by
  cases xs with
  | nil => simp [lastPrev]
  | cons d ds =>
    have h1 : (d :: ds).getLast?.isSome = true := by
      rw [List.getLast?_isSome]
      simp
    obtain ⟨l, hl⟩ := Option.isSome_iff_exists.mp h1
    simp [lastPrev, List.getLast?_cons_cons, hl]

/-- Scanning for quads skips over a digit-free block. -/
theorem scanFinds_nodigit_append (x : List Char)
    (hx : ∀ c ∈ x, c.isDigit = false) :
    ∀ (prev : Option Char) (t : List Char),
    scanFinds ipMatch prev (x ++ t) = scanFinds ipMatch (lastPrev x prev) t := by
  induction x with
  | nil => intro prev t; simp [lastPrev]
  | cons c xs ih =>
    intro prev t
    have hc : c.isDigit = false := hx c (by simp)
    have hxs : ∀ a ∈ xs, a.isDigit = false := fun a ha => hx a (by simp [ha])
    rw [List.cons_append, lastPrev_cons]
    have hm : ipMatch prev (c :: (xs ++ t)) = none := ipMatch_nondigit _ _ _ hc
    simp [scanFinds, hm]
    exact ih hxs (some c) t

/-- A failed scan stays failed on any suffix, entered with the context
character the original scan would have had there. -/
theorem scanFinds_drop (m : Option Char → List Char → Option Nat) :
    ∀ (k : Nat) (s : List Char) (prev : Option Char), 1 ≤ k →
    scanFinds m prev s = false →
    scanFinds m ((List.take k s).getLast?) (List.drop k s) = false := by
  intro k
  induction k with
  | zero => intro s prev h; omega
  | succ j ih =>
    intro s prev _ h
    cases s with
    | nil => simp [scanFinds]
    | cons c rest =>
      obtain ⟨_, htail⟩ := scanFinds_false_elim _ _ _ _ h
      cases j with
      | zero => simpa using htail
      | succ i =>
        cases rest with
        | nil => simp [scanFinds]
        | cons c2 r2 =>
          have hrec := ih (c2 :: r2) (some c) (by omega) htail
          have ht : List.take (i + 1 + 1) (c :: c2 :: r2) =
              c :: List.take (i + 1) (c2 :: r2) := by
            simp [List.take_succ_cons]
          have ht2 : List.take (i + 1) (c2 :: r2) =
              c2 :: List.take i r2 := by
            simp [List.take_succ_cons]
          rw [ht, ht2, List.getLast?_cons_cons, ← ht2, List.drop_succ_cons]
          exact hrec

/-- First-substitution decomposition of an engine run: either nothing was
replaced, or the output splits at the first replacement. -/
theorem reSubGo_decomp (m : Option Char → List Char → Option Nat)
    (repl : List Char) : ∀ (fuel : Nat) (prev : Option Char) (s : List Char),
    reSubGo m repl fuel prev s = s ∨
    ∃ e s₂ out₃ pv₂ k₂, s = e ++ s₂ ∧
      reSubGo m repl fuel prev s = e ++ repl ++ out₃ ∧ m pv₂ s₂ = some k₂ := by
  intro fuel
  induction fuel with
  | zero => intro prev s; exact Or.inl rfl
  | succ f ih =>
    intro prev s
    cases s with
    | nil => exact Or.inl rfl
    | cons c rest =>
      cases hm : m prev (c :: rest) with
      | some k =>
        refine Or.inr ⟨[], c :: rest,
          reSubGo m repl f ((List.take k (c :: rest)).getLast?)
            (List.drop k (c :: rest)), prev, k, by simp, ?_, hm⟩
        simp [reSubGo, hm]
      | none =>
        rcases ih (some c) rest with hsame |
          ⟨e, s₂, out₃, pv₂, k₂, hsplit, hout, hm₂⟩
        · left
          simp [reSubGo, hm, hsame]
        · right
          exact ⟨c :: e, s₂, out₃, pv₂, k₂, by simp [hsplit],
            by simp [reSubGo, hm, hout], hm₂⟩

/-- A successful email match consumes at least one character. -/
theorem emailMatch_pos (prev : Option Char) (s : List Char) (k : Nat)
    (h : emailMatch prev s = some k) : 1 ≤ k := by
  cases s with
  | nil => simp [emailMatch] at h
  | cons c s' =>
    simp only [emailMatch] at h
    split at h
    · split at h
      · split at h
        · split at h
          · simp only [Option.some.injEq] at h; omega
          · exact absurd h (by simp)
        · exact absurd h (by simp)
      · exact absurd h (by simp)
    · exact absurd h (by simp)

/-- A successful keyword attempt consumes at least one character. -/
theorem redactTry_pos (kw s : List Char) (k : Nat)
    (h : redactTry kw s = some k) : 1 ≤ k := by
  simp only [redactTry] at h
  split at h
  · split at h
    · exact absurd h (by simp)
    · split at h
      · split at h
        · simp only [Option.some.injEq] at h; omega
        · exact absurd h (by simp)
      · exact absurd h (by simp)
  · exact absurd h (by simp)

/-- A successful redaction match consumes at least one character. -/
theorem redactMatch_pos (s : List Char) (k : Nat)
    (h : redactMatch s = some k) : 1 ≤ k := by
  simp only [redactMatch] at h
  have : ∀ kws, tryEach kws s = some k → 1 ≤ k := by
    intro kws
    induction kws with
    | nil => intro hc; simp [tryEach] at hc
    | cons kw rest ih =>
      intro hc
      simp only [tryEach] at hc
      split at hc
      · next n hn =>
        simp only [Option.some.injEq] at hc
        exact hc ▸ redactTry_pos kw s n hn
      · exact ih hc
  exact this _ h

/-- A successful home-path match consumes at least one character. -/
theorem homeMatch_pos (s : List Char) (k : Nat)
    (h : homeMatch s = some k) : 1 ≤ k := by
  simp only [homeMatch] at h
  split at h
  · split at h
    · simp only [Option.some.injEq] at h; omega
    · exact absurd h (by simp)
  · exact absurd h (by simp)

/-- A successful log-path match consumes at least one character. -/
theorem logMatch_pos (s : List Char) (k : Nat)
    (h : logMatch s = some k) : 1 ≤ k := by
  simp only [logMatch] at h
  split at h
  · split at h
    · split at h
      · split at h
        · simp only [Option.some.injEq] at h; omega
        · exact absurd h (by simp)
      · exact absurd h (by simp)
    · exact absurd h (by simp)
  · exact absurd h (by simp)

/-- A successful hex-run match consumes at least one character. -/
theorem hexMatch_pos (prev : Option Char) (s : List Char) (k : Nat)
    (h : hexMatch prev s = some k) : 1 ≤ k := by
  cases s with
  | nil => simp [hexMatch] at h
  | cons c s' =>
    simp only [hexMatch] at h
    split at h
    · split at h
      · next hc => simp only [Option.some.injEq] at h; omega
      · exact absurd h (by simp)
    · exact absurd h (by simp)

/-- A successful identifier-run match consumes at least one character. -/
theorem idMatch_pos (prev : Option Char) (s : List Char) (k : Nat)
    (h : idMatch prev s = some k) : 1 ≤ k := by
  cases s with
  | nil => simp [idMatch] at h
  | cons c s' =>
    simp only [idMatch] at h
    split at h
    · split at h
      · next hc => simp only [Option.some.injEq] at h; omega
      · exact absurd h (by simp)
    · exact absurd h (by simp)

/-- The IP-replacement pass leaves no word-bounded dotted quad: every match
is replaced by the digit-free placeholder, whose ending word character also
blocks a fresh boundary, and any match the scanner could find against the
rewritten tail transfers back to the original text, where the pass would
have replaced it. -/
theorem reSubGo_ip_no_quad : ∀ (fuel : Nat) (prev : Option Char)
    (s : List Char), s.length ≤ fuel →
    scanFinds ipMatch prev
      (reSubGo ipMatch "XXX.XXX.XXX.XXX".data fuel prev s) = false := by
  intro fuel
  induction fuel with
  | zero =>
    intro prev s hlen
    cases s with
    | nil => rfl
    | cons c rest => simp at hlen
  | succ f ih =>
    intro prev s hlen
    cases s with
    | nil => rfl
    | cons c rest =>
      cases hm : ipMatch prev (c :: rest) with
      | some k =>
        have hk1 : 1 ≤ k := ipMatch_pos _ _ _ hm
        have hlen2 : (List.drop k (c :: rest)).length ≤ f := by
          simp only [List.length_drop, List.length_cons]
          simp only [List.length_cons] at hlen
          omega
        have hih := ih ((List.take k (c :: rest)).getLast?)
          (List.drop k (c :: rest)) hlen2
        have hW := scanFinds_prevWord (some 'X') _ _ (by decide) hih
        have hx : ∀ ch ∈ "XXX.XXX.XXX.XXX".data, ch.isDigit = false := by
          decide
        have hstep : reSubGo ipMatch "XXX.XXX.XXX.XXX".data (f + 1) prev
            (c :: rest) = "XXX.XXX.XXX.XXX".data ++
              reSubGo ipMatch "XXX.XXX.XXX.XXX".data f
                ((List.take k (c :: rest)).getLast?)
                (List.drop k (c :: rest)) := by
          simp [reSubGo, hm]
        rw [hstep, scanFinds_nodigit_append _ hx]
        have hlp : lastPrev "XXX.XXX.XXX.XXX".data prev = some 'X' := rfl
        rw [hlp]
        exact hW
      | none =>
        have hih := ih (some c) rest (by
          simp only [List.length_cons] at hlen; omega)
        have hhead : ipMatch prev
            (c :: reSubGo ipMatch "XXX.XXX.XXX.XXX".data f (some c) rest) =
            none := by
          cases hmh : ipMatch prev
              (c :: reSubGo ipMatch "XXX.XXX.XXX.XXX".data f (some c) rest)
            with
          | none => rfl
          | some k2 =>
            exfalso
            rcases reSubGo_decomp ipMatch "XXX.XXX.XXX.XXX".data f (some c)
                rest with hsame | ⟨e, s₂, out₃, pv₂, k₂, hsplit, hout, hm₂⟩
            · rw [hsame] at hmh
              rw [hm] at hmh
              exact Option.noConfusion hmh
            · have hmh' : ipMatch prev ((c :: e) ++ 'X' ::
                  ("XX.XXX.XXX.XXX".data ++ out₃)) = some k2 := by
                rw [hout] at hmh
                simpa [List.append_assoc] using hmh
              have htr := ipMatch_transfer_word prev (c :: e) _ 'X' k2
                (by decide) (by decide) hmh' s₂
              have hback : (c :: e) ++ s₂ = c :: rest := by simp [hsplit]
              rw [hback] at htr
              rw [hm] at htr
              exact Option.noConfusion htr
        have hstep : reSubGo ipMatch "XXX.XXX.XXX.XXX".data (f + 1) prev
            (c :: rest) =
            c :: reSubGo ipMatch "XXX.XXX.XXX.XXX".data f (some c) rest := by
          simp [reSubGo, hm]
        rw [hstep]
        simp [scanFinds, hhead, hih]

/-- A substitution pass whose replacement is digit-free and ends in a word
character, and whose matches transfer under the IPv4 matcher, preserves
freedom from word-bounded dotted quads. -/
theorem reSubGo_preserves_no_quad
    (m : Option Char → List Char → Option Nat) (repl : List Char)
    (hnd : ∀ ch ∈ repl, ch.isDigit = false)
    (hlast : ∀ prev, wordStatusO (lastPrev repl prev) = true)
    (hpos : ∀ pv t k, m pv t = some k → 1 ≤ k)
    (htrans : ∀ (prev : Option Char) (z out₃ s₂ : List Char)
      (pv₂ : Option Char) (k₂ k : Nat), m pv₂ s₂ = some k₂ →
      ipMatch prev (z ++ repl ++ out₃) = some k →
      ipMatch prev (z ++ s₂) = some k) :
    ∀ (fuel : Nat) (prev : Option Char) (s : List Char), s.length ≤ fuel →
    scanFinds ipMatch prev s = false →
    scanFinds ipMatch prev (reSubGo m repl fuel prev s) = false := by
  intro fuel
  induction fuel with
  | zero =>
    intro prev s hlen hq
    cases s with
    | nil => rfl
    | cons c rest => simp at hlen
  | succ f ih =>
    intro prev s hlen hq
    cases s with
    | nil => rfl
    | cons c rest =>
      cases hm : m prev (c :: rest) with
      | some k =>
        have hk1 : 1 ≤ k := hpos _ _ _ hm
        have hlen2 : (List.drop k (c :: rest)).length ≤ f := by
          simp only [List.length_drop, List.length_cons]
          simp only [List.length_cons] at hlen
          omega
        have hqdrop := scanFinds_drop ipMatch k (c :: rest) prev hk1 hq
        have hih := ih ((List.take k (c :: rest)).getLast?)
          (List.drop k (c :: rest)) hlen2 hqdrop
        have hW := scanFinds_prevWord (lastPrev repl prev) _ _ (hlast prev) hih
        have hstep : reSubGo m repl (f + 1) prev (c :: rest) =
            repl ++ reSubGo m repl f ((List.take k (c :: rest)).getLast?)
              (List.drop k (c :: rest)) := by
          simp [reSubGo, hm]
        rw [hstep, scanFinds_nodigit_append _ hnd]
        exact hW
      | none =>
        obtain ⟨hq0, hqtail⟩ := scanFinds_false_elim _ _ _ _ hq
        have hih := ih (some c) rest (by
          simp only [List.length_cons] at hlen; omega) hqtail
        have hhead : ipMatch prev (c :: reSubGo m repl f (some c) rest) =
            none := by
          cases hmh : ipMatch prev (c :: reSubGo m repl f (some c) rest) with
          | none => rfl
          | some k2 =>
            exfalso
            rcases reSubGo_decomp m repl f (some c) rest with hsame |
              ⟨e, s₂, out₃, pv₂, k₂, hsplit, hout, hm₂⟩
            · rw [hsame] at hmh
              rw [hq0] at hmh
              exact Option.noConfusion hmh
            · have hmh' : ipMatch prev ((c :: e) ++ repl ++ out₃) =
                  some k2 := by
                rw [hout] at hmh
                simpa [List.append_assoc] using hmh
              have htr := htrans prev (c :: e) out₃ s₂ pv₂ k₂ k2 hm₂ hmh'
              have hback : (c :: e) ++ s₂ = c :: rest := by simp [hsplit]
              rw [hback] at htr
              rw [hq0] at htr
              exact Option.noConfusion htr
        have hstep : reSubGo m repl (f + 1) prev (c :: rest) =
            c :: reSubGo m repl f (some c) rest := by
          simp [reSubGo, hm]
        rw [hstep]
        simp [scanFinds, hhead, hih]

/-- Email replacements transfer IPv4 matches back to the original text. -/
theorem emailStage_trans : ∀ (prev : Option Char) (z out₃ s₂ : List Char)
    (pv₂ : Option Char) (k₂ k : Nat), emailMatch pv₂ s₂ = some k₂ →
    ipMatch prev (z ++ "user@domain.com".data ++ out₃) = some k →
    ipMatch prev (z ++ s₂) = some k := by
  intro prev z out₃ s₂ pv₂ k₂ k _ h
  have hsplit : ("user@domain.com".data : List Char) =
      'u' :: "ser@domain.com".data := rfl
  rw [List.append_assoc, hsplit, List.cons_append] at h
  exact ipMatch_transfer_word prev z ("ser@domain.com".data ++ out₃) 'u' k
    (by decide) (by decide) h s₂

/-- Redaction replacements transfer IPv4 matches back to the original text. -/
theorem redactStage_trans : ∀ (prev : Option Char) (z out₃ s₂ : List Char)
    (pv₂ : Option Char) (k₂ k : Nat), redactMatchP pv₂ s₂ = some k₂ →
    ipMatch prev (z ++ "REDACTED".data ++ out₃) = some k →
    ipMatch prev (z ++ s₂) = some k := by
  intro prev z out₃ s₂ pv₂ k₂ k _ h
  have hsplit : ("REDACTED".data : List Char) = 'R' :: "EDACTED".data := rfl
  rw [List.append_assoc, hsplit, List.cons_append] at h
  exact ipMatch_transfer_word prev z ("EDACTED".data ++ out₃) 'R' k
    (by decide) (by decide) h s₂

/-- Hash replacements transfer IPv4 matches back to the original text. -/
theorem hexStage_trans : ∀ (prev : Option Char) (z out₃ s₂ : List Char)
    (pv₂ : Option Char) (k₂ k : Nat), hexMatch pv₂ s₂ = some k₂ →
    ipMatch prev (z ++ "HASH_VALUE".data ++ out₃) = some k →
    ipMatch prev (z ++ s₂) = some k := by
  intro prev z out₃ s₂ pv₂ k₂ k _ h
  have hsplit : ("HASH_VALUE".data : List Char) = 'H' :: "ASH_VALUE".data := rfl
  rw [List.append_assoc, hsplit, List.cons_append] at h
  exact ipMatch_transfer_word prev z ("ASH_VALUE".data ++ out₃) 'H' k
    (by decide) (by decide) h s₂

/-- Identifier replacements transfer IPv4 matches back to the original text. -/
theorem idStage_trans : ∀ (prev : Option Char) (z out₃ s₂ : List Char)
    (pv₂ : Option Char) (k₂ k : Nat), idMatch pv₂ s₂ = some k₂ →
    ipMatch prev (z ++ "ID_VALUE".data ++ out₃) = some k →
    ipMatch prev (z ++ s₂) = some k := by
  intro prev z out₃ s₂ pv₂ k₂ k _ h
  have hsplit : ("ID_VALUE".data : List Char) = 'I' :: "D_VALUE".data := rfl
  rw [List.append_assoc, hsplit, List.cons_append] at h
  exact ipMatch_transfer_word prev z ("D_VALUE".data ++ out₃) 'I' k
    (by decide) (by decide) h s₂

/-- Home-path replacements transfer IPv4 matches back to the original text:
the replacement and the matched span both start with a slash, so the word
boundary situation at the junction is unchanged. -/
theorem homeStage_trans : ∀ (prev : Option Char) (z out₃ s₂ : List Char)
    (pv₂ : Option Char) (k₂ k : Nat), homeMatchP pv₂ s₂ = some k₂ →
    ipMatch prev (z ++ "/home/user".data ++ out₃) = some k →
    ipMatch prev (z ++ s₂) = some k := by
  intro prev z out₃ s₂ pv₂ k₂ k hm₂ h
  have hlw : leadsWith "/home/".data s₂ = true := by
    cases hh : leadsWith "/home/".data s₂ with
    | true => rfl
    | false => simp [homeMatchP, homeMatch, hh] at hm₂
  obtain ⟨q, hq⟩ := (leadsWith_iff _ _).mp hlw
  have hs₂ : s₂ = '/' :: ("home/".data ++ q) := by rw [hq]; rfl
  have hsplit : ("/home/user".data : List Char) = '/' :: "home/user".data :=
    rfl
  rw [List.append_assoc, hsplit, List.cons_append] at h
  rw [hs₂]
  exact ipMatch_transfer_same prev z ("home/user".data ++ out₃)
    ("home/".data ++ q) '/' k (by decide) (by decide) h

/-- Log-path replacements transfer IPv4 matches back to the original text:
the replacement and the matched span both start with a slash. -/
theorem logStage_trans : ∀ (prev : Option Char) (z out₃ s₂ : List Char)
    (pv₂ : Option Char) (k₂ k : Nat), logMatchP pv₂ s₂ = some k₂ →
    ipMatch prev (z ++ "/var/log/service/logfile".data ++ out₃) = some k →
    ipMatch prev (z ++ s₂) = some k := by
  intro prev z out₃ s₂ pv₂ k₂ k hm₂ h
  have hlw : leadsWith "/var/log/".data s₂ = true := by
    cases hh : leadsWith "/var/log/".data s₂ with
    | true => rfl
    | false => simp [logMatchP, logMatch, hh] at hm₂
  obtain ⟨q, hq⟩ := (leadsWith_iff _ _).mp hlw
  have hs₂ : s₂ = '/' :: ("var/log/".data ++ q) := by rw [hq]; rfl
  have hsplit : ("/var/log/service/logfile".data : List Char) =
      '/' :: "var/log/service/logfile".data := rfl
  rw [List.append_assoc, hsplit, List.cons_append] at h
  rw [hs₂]
  exact ipMatch_transfer_same prev z ("var/log/service/logfile".data ++ out₃)
    ("var/log/".data ++ q) '/' k (by decide) (by decide) h

/-- The full sanitizer output never contains a word-bounded dotted quad. -/
theorem sanitize_no_quad (s : String) :
    hasIpQuad (sanitize_output s) = false := by
  have h1 : scanFinds ipMatch none (ipStage s.data) = false :=
    reSubGo_ip_no_quad (s.data.length + 1) none s.data (Nat.le_succ _)
  have h2 : scanFinds ipMatch none (emailStage (ipStage s.data)) = false :=
    reSubGo_preserves_no_quad emailMatch "user@domain.com".data (by decide)
      (fun _ => rfl) emailMatch_pos emailStage_trans _ none _
      (Nat.le_succ _) h1
  have h3 : scanFinds ipMatch none
      (redactStage (emailStage (ipStage s.data))) = false :=
    reSubGo_preserves_no_quad redactMatchP "REDACTED".data (by decide)
      (fun _ => rfl) (fun _ t k h => redactMatch_pos t k h)
      redactStage_trans _ none _ (Nat.le_succ _) h2
  have h4 : scanFinds ipMatch none
      (homeStage (redactStage (emailStage (ipStage s.data)))) = false :=
    reSubGo_preserves_no_quad homeMatchP "/home/user".data (by decide)
      (fun _ => rfl) (fun _ t k h => homeMatch_pos t k h)
      homeStage_trans _ none _ (Nat.le_succ _) h3
  have h5 : scanFinds ipMatch none
      (logStage (homeStage (redactStage (emailStage (ipStage s.data))))) =
      false :=
    reSubGo_preserves_no_quad logMatchP "/var/log/service/logfile".data
      (by decide) (fun _ => rfl) (fun _ t k h => logMatch_pos t k h)
      logStage_trans _ none _ (Nat.le_succ _) h4
  have h6 : scanFinds ipMatch none
      (hexStage (logStage (homeStage (redactStage
        (emailStage (ipStage s.data)))))) = false :=
    reSubGo_preserves_no_quad hexMatch "HASH_VALUE".data (by decide)
      (fun _ => rfl) hexMatch_pos hexStage_trans _ none _ (Nat.le_succ _) h5
  have h7 : scanFinds ipMatch none
      (idStage (hexStage (logStage (homeStage (redactStage
        (emailStage (ipStage s.data))))))) = false :=
    reSubGo_preserves_no_quad idMatch "ID_VALUE".data (by decide)
      (fun _ => rfl) idMatch_pos idStage_trans _ none _ (Nat.le_succ _) h6
  exact h7

/-- C4 (amended): for every input containing a word-bounded dotted quad,
the sanitize output contains no such quad, and the IP-replacement stage's
output contains the literal placeholder `XXX.XXX.XXX.XXX`; the final output
need not retain the placeholder, since a later rule can rewrite it, as on
`a@1.2.3.4`, whose final output is `user@domain.com`. -/
theorem c4_no_quad_and_stage_placeholder :
    (∀ s : String, hasIpQuad s = true →
      hasIpQuad (sanitize_output s) = false ∧
      ∃ p q, ipStage s.data = p ++ "XXX.XXX.XXX.XXX".data ++ q) ∧
    sanitize_output "a@1.2.3.4" = "user@domain.com" := by
  refine ⟨fun s hs => ⟨sanitize_no_quad s, ?_⟩, by decide⟩
  exact reSubGo_emits ipMatch "XXX.XXX.XXX.XXX".data (s.data.length + 1)
    none s.data (Nat.le_succ _) hs

/-- C4 witness: a concrete server line with an address; its sanitize output
has no word-bounded dotted quad and its IP-stage output holds the
placeholder. -/
theorem c4_no_quad_and_stage_placeholder_witness :
    hasIpQuad (sanitize_output "server 10.0.0.7 unreachable") = false ∧
    ∃ p q, ipStage "server 10.0.0.7 unreachable".data =
      p ++ "XXX.XXX.XXX.XXX".data ++ q :=
  c4_no_quad_and_stage_placeholder.1 "server 10.0.0.7 unreachable"
    (by decide)
